import Mathlib

/-!
Verification of the evaluation-result aggregation and reporting pipeline of
`Agent-evaluation-samples`: the record extractor, statistics aggregator and
batch partitioner of `evaluation-results/eval-auto.py`, and the dashboard
renderer of `2-advanced-evaluation/dashboard_generator.py`, shallowly
embedded over a JSON-like value type with exact rational arithmetic in
place of IEEE floats.
-/

/-! ## Python rounding

`round(x, n)` in Python rounds half to even.  We model it exactly over `ℚ`
(the source operates on IEEE doubles; ties behave identically except for
binary-representation artifacts, which no claim below depends on). -/

/-- Round a rational to the nearest integer, ties to even: with `f = ⌊q⌋`,
return `f` when the fractional part is below one half (`2q < 2f + 1`),
`f + 1` when above, and on an exact tie whichever of the two is even. -/
def roundHalfEven (q : ℚ) : ℤ :=
  let f := ⌊q⌋
  if 2 * q < 2 * (f : ℚ) + 1 then f
  else if 2 * (f : ℚ) + 1 < 2 * q then f + 1
  else if f % 2 = 0 then f else f + 1

/-- Python `round(q, n)`: round to `n` decimal digits, ties to even. -/
def pyRound (q : ℚ) (n : ℕ) : ℚ :=
  (roundHalfEven (q * 10 ^ n) : ℚ) / 10 ^ n

/-! ## Data model for the statistics aggregator (`eval-auto.py`)

`compute_statistics` consumes the list produced by `extract_evaluations`:
dictionaries with a `score` (numeric or `None` in every run the script
accepts) and a `metadata` dictionary of scalars.  We embed exactly that
shape: an optional rational score plus a scalar-valued metadata mapping. -/

/-- A Python scalar as it appears in an extracted record's metadata
(`str | int/float | bool`; numbers are merged into `ℚ` as in the rest of
the embedding). -/
inductive Scalar where
  | s (v : String)
  | n (v : ℚ)
  | b (v : Bool)
  deriving DecidableEq, Repr

/-- First-match association-list lookup, modelling Python `dict.get` /
`in` on dictionaries (whose keys are unique). -/
def alistGet {κ ν : Type} [DecidableEq κ] : List (κ × ν) → κ → Option ν
  | [], _ => none
  | p :: ps, k => if p.1 = k then some p.2 else alistGet ps k

/-- One extracted evaluation record as consumed by `compute_statistics`:
`e['score']` (possibly `None`) and `e['metadata']`. -/
structure SEval where
  score : Option ℚ
  metadata : List (String × Scalar)
  deriving DecidableEq, Repr

/-- `e['metadata'].get('evaluator_name', e['metadata'].get('label', 'unknown'))`
(eval-auto.py line 140). -/
def evaluatorOf (e : SEval) : Scalar :=
  (alistGet e.metadata "evaluator_name").getD
    ((alistGet e.metadata "label").getD (.s "unknown"))

/-- Arithmetic mean `statistics.mean` (callers guard against `[]`;
`ℚ`-division by zero yields 0, a case the source never reaches). -/
def qmean (qs : List ℚ) : ℚ := qs.sum / qs.length

/-- Python `min` over a list (callers guard against `[]`). -/
def qminD : List ℚ → ℚ
  | [] => 0
  | x :: xs => xs.foldl min x

/-- Python `max` over a list (callers guard against `[]`). -/
def qmaxD : List ℚ → ℚ
  | [] => 0
  | x :: xs => xs.foldl max x

/-- Sample variance with Bessel's correction, the square of
`statistics.stdev` (callers guard `length > 1`). -/
def sampleVar (qs : List ℚ) : ℚ :=
  ((qs.map (fun x => (x - qmean qs) ^ 2)).sum) / (qs.length - 1 : ℕ)

/-- Models the floating-point square root inside `statistics.stdev` by a
fixed-precision rational approximation.  Every claim proved below depends
only on this being a well-defined function of its argument (presence and
rounding of `stdev`), never on its numeric value. -/
def floatSqrt (q : ℚ) : ℚ :=
  if q ≤ 0 then 0 else (Nat.sqrt ((q * 10 ^ 12).floor.toNat) : ℚ) / 10 ^ 6

/-- Append a score to the group of key `k`, creating the group at the end
if absent: `defaultdict(list)` access plus `append` (eval-auto.py
lines 138-142), preserving first-insertion key order. -/
def groupAdd (g : List (Scalar × List ℚ)) (k : Scalar) (q : ℚ) :
    List (Scalar × List ℚ) :=
  if (alistGet g k).isSome then
    g.map (fun p => if p.1 = k then (p.1, p.2 ++ [q]) else p)
  else g ++ [(k, [q])]

/-- The `by_evaluator` grouping loop of `compute_statistics`
(eval-auto.py lines 138-142): for each record, in order, append its score
to its evaluator's list — only when the score is not `None`. -/
def by_evaluator (evaluations : List SEval) : List (Scalar × List ℚ) :=
  evaluations.foldl
    (fun g e =>
      match e.score with
      | some q => groupAdd g (evaluatorOf e) q
      | none => g)
    []

/-- Per-evaluator aggregate built at eval-auto.py lines 144-153. -/
structure EvaluatorStats where
  count : ℕ
  mean : ℚ
  min : ℚ
  max : ℚ
  stdev : Option ℚ
  deriving DecidableEq, Repr

/-- eval-auto.py lines 146-153: the statistics dictionary for one
evaluator's (nonempty) score list; `stdev` only when more than one. -/
def mkEvaluatorStats (qs : List ℚ) : EvaluatorStats :=
  { count := qs.length
    mean := pyRound (qmean qs) 3
    min := pyRound (qminD qs) 3
    max := pyRound (qmaxD qs) 3
    stdev := if 1 < qs.length then some (pyRound (floatSqrt (sampleVar qs)) 3) else none }

/-- The dictionary returned by `compute_statistics` on a nonempty input
(eval-auto.py lines 157-168). -/
structure RunStats where
  total : ℕ
  valid_scores : ℕ
  mean_score : Option ℚ
  min_score : Option ℚ
  max_score : Option ℚ
  stdev : Option ℚ
  low_scoring_count : ℕ
  low_scoring_pct : ℚ
  by_evaluator : List (Scalar × EvaluatorStats)
  threshold : ℚ
  deriving DecidableEq, Repr

/-- `compute_statistics` returns one of two dictionary shapes: the early
`{'total': 0, 'error': 'No evaluations found'}` (line 134) or the full
statistics dictionary (lines 157-168). -/
inductive StatsResult where
  | err (total : ℕ) (error : String)
  | ok (stats : RunStats)
  deriving DecidableEq, Repr

/-- Whether the result is the full statistics dictionary. -/
def StatsResult.isFull : StatsResult → Bool
  | .ok _ => true
  | .err _ _ => false

/-- `low_scoring_pct` of the result (0 on the error shape, which carries
no such field). -/
def StatsResult.pctOf : StatsResult → ℚ
  | .err _ _ => 0
  | .ok s => s.low_scoring_pct

/-- `low_scoring_count` of the result (0 on the error shape). -/
def StatsResult.lowCountOf : StatsResult → ℕ
  | .err _ _ => 0
  | .ok s => s.low_scoring_count

/-- `valid_scores` of the result (0 on the error shape). -/
def StatsResult.validOf : StatsResult → ℕ
  | .err _ _ => 0
  | .ok s => s.valid_scores

/-- `compute_statistics(evaluations, threshold)` of eval-auto.py
lines 131-168, translated clause by clause. -/
def compute_statistics (evaluations : List SEval) (threshold : ℚ) : StatsResult :=
  if evaluations = [] then .err 0 "No evaluations found"
  else
    let scores := evaluations.filterMap (fun e => e.score)
    let evaluator_stats :=
      (by_evaluator evaluations).map (fun p => (p.1, mkEvaluatorStats p.2))
    let low_scoring :=
      evaluations.filter (fun e =>
        match e.score with
        | some q => q < threshold
        | none => false)
    .ok
      { total := evaluations.length
        valid_scores := scores.length
        mean_score := if scores = [] then none else some (pyRound (qmean scores) 3)
        min_score := if scores = [] then none else some (pyRound (qminD scores) 3)
        max_score := if scores = [] then none else some (pyRound (qmaxD scores) 3)
        stdev :=
          if 1 < scores.length then some (pyRound (floatSqrt (sampleVar scores)) 3)
          else none
        low_scoring_count := low_scoring.length
        low_scoring_pct :=
          if scores = [] then 0
          else pyRound ((low_scoring.length : ℚ) / (scores.length : ℚ) * 100) 1
        by_evaluator := evaluator_stats
        threshold := threshold }

/-- `threshold` of the result (0 on the error shape). -/
def StatsResult.thresholdOf : StatsResult → ℚ
  | .err _ _ => 0
  | .ok s => s.threshold

/-- `pyRound _ 3` always returns a rational with at most three decimal
digits: scaled by 1000 it is an integer. -/
theorem pyRound_den3 (q : ℚ) : (pyRound q 3 * 1000).den = 1 := by
  have h : pyRound q 3 * 1000 = ((roundHalfEven (q * 10 ^ 3) : ℤ) : ℚ) := by
    unfold pyRound
    rw [show ((10 : ℚ) ^ 3) = 1000 by norm_num]
    field_simp
  rw [h, Rat.den_intCast]

/-- `pyRound _ 1` always returns a rational with at most one decimal
digit: scaled by 10 it is an integer. -/
theorem pyRound_den1 (q : ℚ) : (pyRound q 1 * 10).den = 1 := by
  have h : pyRound q 1 * 10 = ((roundHalfEven (q * 10 ^ 1) : ℤ) : ℚ) := by
    unfold pyRound
    rw [show ((10 : ℚ) ^ 1) = 10 by norm_num]
    field_simp
  rw [h, Rat.den_intCast]

/-- Unfolding lemma: on a nonempty record list `compute_statistics`
returns the full statistics dictionary with the fields of eval-auto.py
lines 157-168. -/
theorem compute_statistics_ok
    (evaluations : List SEval) (threshold : ℚ) (h : evaluations ≠ []) :
    compute_statistics evaluations threshold =
      .ok
        { total := evaluations.length
          valid_scores := (evaluations.filterMap (fun e => e.score)).length
          mean_score :=
            if evaluations.filterMap (fun e => e.score) = [] then none
            else some (pyRound (qmean (evaluations.filterMap (fun e => e.score))) 3)
          min_score :=
            if evaluations.filterMap (fun e => e.score) = [] then none
            else some (pyRound (qminD (evaluations.filterMap (fun e => e.score))) 3)
          max_score :=
            if evaluations.filterMap (fun e => e.score) = [] then none
            else some (pyRound (qmaxD (evaluations.filterMap (fun e => e.score))) 3)
          stdev :=
            if 1 < (evaluations.filterMap (fun e => e.score)).length then
              some (pyRound (floatSqrt (sampleVar (evaluations.filterMap (fun e => e.score)))) 3)
            else none
          low_scoring_count :=
            (evaluations.filter (fun e =>
              match e.score with
              | some q => q < threshold
              | none => false)).length
          low_scoring_pct :=
            if evaluations.filterMap (fun e => e.score) = [] then 0
            else
              pyRound
                (((evaluations.filter (fun e =>
                    match e.score with
                    | some q => q < threshold
                    | none => false)).length : ℚ) /
                  ((evaluations.filterMap (fun e => e.score)).length : ℚ) * 100)
                1
          by_evaluator := (by_evaluator evaluations).map (fun p => (p.1, mkEvaluatorStats p.2))
          threshold := threshold } := by
  unfold compute_statistics
  rw [if_neg h]

/-- C1, counterexample: on the empty record list `compute_statistics`
returns the early `{'total': 0, 'error': 'No evaluations found'}`
dictionary, not a `RunStatistics` value carrying `valid_scores`,
`mean_score`, `low_scoring_pct` or `by_evaluator` fields. -/
theorem compute_statistics_empty_is_error_shape :
    compute_statistics [] (7/10) = .err 0 "No evaluations found" ∧
      (compute_statistics [] (7/10)).isFull = false :=
  ⟨rfl, rfl⟩

/-- C1, amended: for every threshold, the empty record list yields the
degenerate result `total = 0` with error message `'No evaluations found'`
— no statistics fields, but also no division error. -/
theorem compute_statistics_empty (threshold : ℚ) :
    compute_statistics [] threshold = .err 0 "No evaluations found" := rfl

/-- C4, counterexample: with threshold `2` (outside `[0,1]`) and one
record, the aggregator does not fail: it returns the full statistics
dictionary, computed with the out-of-range threshold as given. -/
theorem compute_statistics_accepts_threshold_two :
    (compute_statistics [⟨some 1, []⟩] 2).isFull = true ∧
      (compute_statistics [⟨some 1, []⟩] 2).thresholdOf = 2 ∧
      (compute_statistics [⟨some 1, []⟩] 2).lowCountOf = 1 := by
  rw [compute_statistics_ok [⟨some 1, []⟩] 2 (by decide)]
  refine ⟨rfl, rfl, ?_⟩
  norm_num [StatsResult.lowCountOf]

/-- C4, amended: the aggregator never validates the threshold.  For every
nonempty record list and every threshold — inside or outside `[0,1]` — it
returns the full statistics dictionary, carrying the threshold unchanged;
no InvalidArgument condition exists in the code. -/
theorem compute_statistics_no_threshold_validation
    (evaluations : List SEval) (threshold : ℚ) (h : evaluations ≠ []) :
    ∃ s, compute_statistics evaluations threshold = .ok s ∧
      s.threshold = threshold ∧ s.total = evaluations.length := by
  unfold compute_statistics
  rw [if_neg h]
  exact ⟨_, rfl, rfl, rfl⟩

/-- Witness for C4's amended theorem at a one-record list and the
out-of-range threshold `2`. -/
theorem compute_statistics_no_threshold_validation_witness :
    ([⟨some 1, []⟩] : List SEval) ≠ [] ∧
      ∃ s, compute_statistics [⟨some 1, []⟩] 2 = .ok s ∧
        s.threshold = 2 ∧ s.total = [(⟨some 1, []⟩ : SEval)].length :=
  ⟨by decide, compute_statistics_no_threshold_validation [⟨some 1, []⟩] 2 (by decide)⟩

/-- Input for C7's counterexample: three valid scores, one of them below
the threshold `1/2`. -/
def c7input : List SEval := [⟨some 0, []⟩, ⟨some 1, []⟩, ⟨some 1, []⟩]

/-- C7, counterexample: with one low score out of three valid ones the
code returns `low_scoring_pct = 33.3` (rounded to one decimal), while
`100 * low_scoring_count / valid_scores = 100/3 = 33.333…`; the claimed
exact identity fails. -/
theorem low_scoring_pct_is_rounded :
    (compute_statistics c7input (1/2)).lowCountOf = 1 ∧
      (compute_statistics c7input (1/2)).validOf = 3 ∧
      (compute_statistics c7input (1/2)).pctOf = 333/10 ∧
      (333/10 : ℚ) ≠ 100 * 1 / 3 := by
  rw [show c7input = [⟨some 0, []⟩, ⟨some 1, []⟩, ⟨some 1, []⟩] from rfl,
    compute_statistics_ok _ (1/2) (by decide)]
  have hs : List.filterMap (fun e => e.score)
      [(⟨some 0, []⟩ : SEval), ⟨some 1, []⟩, ⟨some 1, []⟩] = [0, 1, 1] := rfl
  refine ⟨?_, ?_, ?_, by norm_num⟩
  · norm_num [StatsResult.lowCountOf]
  · norm_num [StatsResult.validOf, hs]
  · norm_num [StatsResult.pctOf, hs, pyRound, roundHalfEven]
    exact List.cons_ne_nil _ _

/-- C7, amended: for every nonempty record list and threshold,
`low_scoring_pct` is the half-to-even rounding to one decimal place of
`100 * low_scoring_count / valid_scores` (and `0` when `valid_scores = 0`),
where `low_scoring_count` counts the records with non-null score strictly
below the threshold and `valid_scores` counts the non-null scores. -/
theorem low_scoring_pct_invariant
    (evaluations : List SEval) (threshold : ℚ) (h : evaluations ≠ []) :
    ∃ s, compute_statistics evaluations threshold = .ok s ∧
      s.low_scoring_count =
        (evaluations.filter (fun e =>
          match e.score with
          | some q => q < threshold
          | none => false)).length ∧
      s.valid_scores = (evaluations.filterMap (fun e => e.score)).length ∧
      s.low_scoring_pct =
        (if s.valid_scores = 0 then 0
         else pyRound (100 * (s.low_scoring_count : ℚ) / (s.valid_scores : ℚ)) 1) := by
  rw [compute_statistics_ok evaluations threshold h]
  refine ⟨_, rfl, rfl, rfl, ?_⟩
  by_cases hs : evaluations.filterMap (fun e => e.score) = []
  · simp [hs]
  · have hl : (evaluations.filterMap (fun e => e.score)).length ≠ 0 := by
      simpa [List.length_eq_zero] using hs
    simp only [hs, hl, if_neg, ite_false]
    congr 1
    ring

/-- Witness for C7's amended theorem at the three-record input of the
counterexample. -/
theorem low_scoring_pct_invariant_witness :
    c7input ≠ [] ∧
      ∃ s, compute_statistics c7input (1/2) = .ok s ∧
        s.low_scoring_count =
          (c7input.filter (fun e =>
            match e.score with
            | some q => q < (1/2 : ℚ)
            | none => false)).length ∧
        s.valid_scores = (c7input.filterMap (fun e => e.score)).length ∧
        s.low_scoring_pct =
          (if s.valid_scores = 0 then 0
           else pyRound (100 * (s.low_scoring_count : ℚ) / (s.valid_scores : ℚ)) 1) :=
  ⟨by decide, low_scoring_pct_invariant c7input (1/2) (by decide)⟩

/-- Membership in `if c then some x else none` forces the value. -/
theorem mem_ite_some_none {α : Type} {c : Prop} [Decidable c] {x q : α}
    (h : q ∈ if c then some x else none) : q = x := by
  by_cases hc : c
  · rw [if_pos hc] at h
    exact (Option.mem_some_iff.mp h).symm
  · rw [if_neg hc] at h
    exact absurd h (Option.not_mem_none q)

/-- Membership in `if c then none else some x` forces the value. -/
theorem mem_ite_none_some {α : Type} {c : Prop} [Decidable c] {x q : α}
    (h : q ∈ if c then none else some x) : q = x := by
  by_cases hc : c
  · rw [if_pos hc] at h
    exact absurd h (Option.not_mem_none q)
  · rw [if_neg hc] at h
    exact (Option.mem_some_iff.mp h).symm

/-- C10: every numeric statistic returned by the aggregator is rounded
before being returned — `mean_score`, `min_score`, `max_score`, `stdev`
and each per-evaluator `mean`/`min`/`max`/`stdev` carry at most three
decimal digits (scaled by 1000 they are integers), and `low_scoring_pct`
carries at most one (scaled by 10 it is an integer). -/
theorem compute_statistics_all_rounded
    (evaluations : List SEval) (threshold : ℚ) (h : evaluations ≠ []) :
    ∃ s, compute_statistics evaluations threshold = .ok s ∧
      (∀ q ∈ s.mean_score, (q * 1000).den = 1) ∧
      (∀ q ∈ s.min_score, (q * 1000).den = 1) ∧
      (∀ q ∈ s.max_score, (q * 1000).den = 1) ∧
      (∀ q ∈ s.stdev, (q * 1000).den = 1) ∧
      (s.low_scoring_pct * 10).den = 1 ∧
      (∀ p ∈ s.by_evaluator,
        (p.2.mean * 1000).den = 1 ∧ (p.2.min * 1000).den = 1 ∧
          (p.2.max * 1000).den = 1 ∧ ∀ q ∈ p.2.stdev, (q * 1000).den = 1) := by
  rw [compute_statistics_ok evaluations threshold h]
  have h1000 : (1000 : ℚ) = 10 ^ 3 := by norm_num
  refine ⟨_, rfl, ?_, ?_, ?_, ?_, ?_, ?_⟩
  · intro q hq
    rw [mem_ite_none_some hq, h1000]
    exact pyRound_den3 _
  · intro q hq
    rw [mem_ite_none_some hq, h1000]
    exact pyRound_den3 _
  · intro q hq
    rw [mem_ite_none_some hq, h1000]
    exact pyRound_den3 _
  · intro q hq
    rw [mem_ite_some_none hq, h1000]
    exact pyRound_den3 _
  · split
    · norm_num
    · exact pyRound_den1 _
  · intro p hp
    simp only [List.mem_map] at hp
    obtain ⟨g, _, rfl⟩ := hp
    refine ⟨by rw [h1000]; exact pyRound_den3 _, by rw [h1000]; exact pyRound_den3 _,
      by rw [h1000]; exact pyRound_den3 _, ?_⟩
    intro q hq
    simp only [mkEvaluatorStats] at hq
    rw [mem_ite_some_none hq, h1000]
    exact pyRound_den3 _

/-- Witness for C10 at a one-record list and threshold `7/10`. -/
theorem compute_statistics_all_rounded_witness :
    ([⟨some 1, []⟩] : List SEval) ≠ [] ∧
      ∃ s, compute_statistics [⟨some 1, []⟩] (7/10) = .ok s ∧
        (∀ q ∈ s.mean_score, (q * 1000).den = 1) ∧
        (∀ q ∈ s.min_score, (q * 1000).den = 1) ∧
        (∀ q ∈ s.max_score, (q * 1000).den = 1) ∧
        (∀ q ∈ s.stdev, (q * 1000).den = 1) ∧
        (s.low_scoring_pct * 10).den = 1 ∧
        (∀ p ∈ s.by_evaluator,
          (p.2.mean * 1000).den = 1 ∧ (p.2.min * 1000).den = 1 ∧
            (p.2.max * 1000).den = 1 ∧ ∀ q ∈ p.2.stdev, (q * 1000).den = 1) :=
  ⟨by decide, compute_statistics_all_rounded [⟨some 1, []⟩] (7/10) (by decide)⟩

/-! ## The batch partitioner (`eval-auto.py` lines 170-172)

`batch_evaluations` is the comprehension
`[evaluations[i:i+batch_size] for i in range(0, len(evaluations), batch_size)]`.
We embed Python `range` (including its `ValueError` on step 0 and CPython's
length-of-range computation) and Python list slicing, then the
comprehension itself.  The element type stays generic, as in the source. -/

/-- Python `range(start, stop, step)` as a list.  Raises
`ValueError: range() arg 3 must not be zero` on `step = 0`; otherwise the
element count is CPython's `get_len_of_range`. -/
def pyRange (start stop step : ℤ) : Except String (List ℤ) :=
  if step = 0 then .error "range() arg 3 must not be zero"
  else
    let cnt : ℕ :=
      if 0 < step ∧ start < stop then ((stop - start - 1) / step).toNat + 1
      else if step < 0 ∧ stop < start then ((start - stop - 1) / (-step)).toNat + 1
      else 0
    .ok ((List.range cnt).map (fun k : ℕ => start + (k : ℤ) * step))

/-- Python slice `l[i:j]` (default step): negative indices count from the
end, then both bounds clamp into `[0, len(l)]`. -/
def pySlice {α : Type} (l : List α) (i j : ℤ) : List α :=
  let n : ℤ := l.length
  let lo := if i < 0 then max (n + i) 0 else min i n
  let hi := if j < 0 then max (n + j) 0 else min j n
  (l.drop lo.toNat).take (hi - lo).toNat

/-- `batch_evaluations(evaluations, batch_size)` of eval-auto.py
lines 170-172: the slice comprehension over `range(0, len, batch_size)`. -/
def batch_evaluations {α : Type} (evaluations : List α) (batch_size : ℤ) :
    Except String (List (List α)) :=
  (pyRange 0 evaluations.length batch_size).map
    (fun idxs => idxs.map (fun i => pySlice evaluations i (i + batch_size)))

/-- Reference chunking: split into contiguous groups of `b` (the last one
possibly shorter); meaningful for `b > 0`. -/
def chunk {α : Type} : ℕ → List α → List (List α)
  | _, [] => []
  | 0, _ :: _ => []
  | b + 1, x :: xs => (x :: xs).take (b + 1) :: chunk (b + 1) ((x :: xs).drop (b + 1))
termination_by _ l => l.length
decreasing_by simp only [List.drop_succ_cons, List.length_drop, List.length_cons]; omega

deriving instance DecidableEq for Except

example : chunk 2 [1, 2, 3, 4, 5] = [[1, 2], [3, 4], [5]] := by simp [chunk]
example : pyRange 0 5 2 = .ok [0, 2, 4] := by decide
example : pyRange 0 5 (-1) = .ok [] := by decide
example : pySlice [1, 2, 3, 4, 5] 2 4 = [3, 4] := by decide

/-- On natural bounds `a, a+b`, Python slicing is `drop`-then-`take`. -/
theorem pySlice_nat {α : Type} (l : List α) (a b : ℕ) :
    pySlice l (a : ℤ) ((a : ℤ) + (b : ℤ)) = (l.drop a).take b := by
  simp only [pySlice]
  rw [if_neg (by omega : ¬ ((a : ℤ) < 0)), if_neg (by omega : ¬ ((a : ℤ) + (b : ℤ) < 0))]
  have hlo : (min (a : ℤ) (l.length : ℤ)).toNat = min a l.length := by omega
  have hhi : (min ((a : ℤ) + (b : ℤ)) (l.length : ℤ) - min (a : ℤ) (l.length : ℤ)).toNat
      = min (a + b) l.length - min a l.length := by omega
  rw [hlo, hhi]
  rcases le_or_lt a l.length with hle | hgt
  · rw [min_eq_left hle]
    rw [List.take_eq_take]
    simp only [List.length_drop]
    omega
  · rw [min_eq_right hgt.le, List.drop_length,
      List.drop_eq_nil_of_le (by omega : l.length ≤ a)]
    simp


/-- Number of batches CPython's `range(0, n, b)` produces for `b > 0`. -/
def natCnt (n b : ℕ) : ℕ := if n = 0 then 0 else (n - 1) / b + 1

/-- For a positive step, `range(0, n, b)` lists `0, b, 2b, …` with
CPython's count. -/
theorem pyRange_pos (n b : ℕ) (hb : 0 < b) :
    pyRange 0 (n : ℤ) (b : ℤ) =
      .ok ((List.range (natCnt n b)).map (fun k : ℕ => ((k * b : ℕ) : ℤ))) := by
  simp only [pyRange]
  rw [if_neg (by omega : ¬ ((b : ℤ) = 0))]
  rcases Nat.eq_zero_or_pos n with hn | hn
  · subst hn
    rw [if_neg (by omega), if_neg (by omega)]
    simp [natCnt]
  · rw [if_pos ⟨by omega, by omega⟩]
    have h1 : ((n : ℤ) - 0 - 1) / (b : ℤ) = (((n - 1) / b : ℕ) : ℤ) := by
      rw [show ((n : ℤ) - 0 - 1) = ((n - 1 : ℕ) : ℤ) by omega, Int.natCast_ediv]
      rfl
    rw [h1]
    have h2 : ((((n - 1) / b : ℕ) : ℤ)).toNat + 1 = natCnt n b := by
      rw [Int.toNat_natCast]
      unfold natCnt
      rw [if_neg (by omega : ¬ n = 0)]
    rw [h2]
    congr 1
    apply List.map_congr_left
    intro k _
    push_cast
    ring

/-- The index list `0, b, 2b, …` sliced out of `l` in blocks of `b` is
exactly the contiguous chunking (induction on a length bound). -/
theorem range_chunk {α : Type} (b : ℕ) (hb : 0 < b) :
    ∀ (n : ℕ) (l : List α), l.length ≤ n →
      (List.range (natCnt l.length b)).map (fun k => (l.drop (k * b)).take b) =
        chunk b l := by
  intro n
  induction n with
  | zero =>
    intro l hl
    obtain rfl : l = [] := List.eq_nil_of_length_eq_zero (by omega)
    simp [natCnt, chunk]
  | succ n ih =>
    intro l hl
    cases l with
    | nil => simp [natCnt, chunk]
    | cons x xs =>
      obtain ⟨b', rfl⟩ : ∃ b', b = b' + 1 := ⟨b - 1, by omega⟩
      have hchunk : chunk (b' + 1) (x :: xs) =
          (x :: xs).take (b' + 1) :: chunk (b' + 1) ((x :: xs).drop (b' + 1)) := by
        simp [chunk]
      have hcnt : natCnt (x :: xs).length (b' + 1) =
          natCnt ((x :: xs).drop (b' + 1)).length (b' + 1) + 1 := by
        simp only [natCnt, List.length_cons, List.length_drop]
        rcases Nat.eq_zero_or_pos (xs.length - b') with h0 | hpos
        · rw [if_neg (by omega : ¬ xs.length + 1 = 0), if_pos (by omega : xs.length + 1 - (b' + 1) = 0)]
          rw [Nat.div_eq_of_lt (by omega : xs.length + 1 - 1 < b' + 1)]
        · rw [if_neg (by omega : ¬ xs.length + 1 = 0),
            if_neg (by omega : ¬ xs.length + 1 - (b' + 1) = 0)]
          have hdiv := Nat.div_eq_sub_div (by omega : 0 < b' + 1)
            (by omega : b' + 1 ≤ xs.length + 1 - 1)
          rw [show xs.length + 1 - 1 - (b' + 1) = xs.length + 1 - (b' + 1) - 1 from by omega]
            at hdiv
          omega
      rw [hchunk, hcnt, List.range_succ_eq_map, List.map_cons, List.map_map]
      congr 1
      · simp
      · rw [← ih ((x :: xs).drop (b' + 1)) (by simp only [List.length_drop]; omega)]
        apply List.map_congr_left
        intro k _
        simp only [Function.comp]
        rw [List.drop_drop]
        congr 2
        have := Nat.succ_mul k (b' + 1)
        omega

/-- For a positive batch size, `batch_evaluations` succeeds and computes
exactly the contiguous chunking. -/
theorem batch_evaluations_pos {α : Type} (l : List α) (b : ℕ) (hb : 0 < b) :
    batch_evaluations l (b : ℤ) = .ok (chunk b l) := by
  unfold batch_evaluations
  rw [pyRange_pos l.length b hb]
  show Except.ok _ = Except.ok _
  congr 1
  simp only [List.map_map]
  rw [← range_chunk b hb l.length l le_rfl]
  apply List.map_congr_left
  intro k _
  simp only [Function.comp]
  have hcast : ((k * b : ℕ) : ℤ) + (b : ℤ) = ((k * b : ℕ) : ℤ) + ((b : ℕ) : ℤ) := rfl
  rw [hcast]
  exact pySlice_nat l (k * b) b

/-- Chunking a nonempty list with positive block size never produces an
empty list of blocks. -/
theorem chunk_ne_nil {α : Type} (b : ℕ) (x : α) (xs : List α) (hb : 0 < b) :
    chunk b (x :: xs) ≠ [] := by
  obtain ⟨b', rfl⟩ : ∃ b', b = b' + 1 := ⟨b - 1, by omega⟩
  simp [chunk]

/-- Concatenating the chunks restores the list. -/
theorem chunk_join {α : Type} (b : ℕ) (hb : 0 < b) :
    ∀ (n : ℕ) (l : List α), l.length ≤ n → (chunk b l).flatten = l := by
  intro n
  induction n with
  | zero =>
    intro l hl
    obtain rfl : l = [] := List.eq_nil_of_length_eq_zero (by omega)
    simp [chunk]
  | succ n ih =>
    intro l hl
    cases l with
    | nil => simp [chunk]
    | cons x xs =>
      obtain ⟨b', rfl⟩ : ∃ b', b = b' + 1 := ⟨b - 1, by omega⟩
      have hchunk : chunk (b' + 1) (x :: xs) =
          (x :: xs).take (b' + 1) :: chunk (b' + 1) ((x :: xs).drop (b' + 1)) := by
        simp [chunk]
      rw [hchunk, List.flatten_cons,
        ih ((x :: xs).drop (b' + 1)) (by simp only [List.length_drop]; omega),
        List.take_append_drop]

/-- Every chunk is nonempty and no longer than the block size. -/
theorem chunk_mem {α : Type} (b : ℕ) (hb : 0 < b) :
    ∀ (n : ℕ) (l : List α), l.length ≤ n →
      ∀ s ∈ chunk b l, s ≠ [] ∧ s.length ≤ b := by
  intro n
  induction n with
  | zero =>
    intro l hl
    obtain rfl : l = [] := List.eq_nil_of_length_eq_zero (by omega)
    simp [chunk]
  | succ n ih =>
    intro l hl
    cases l with
    | nil => simp [chunk]
    | cons x xs =>
      obtain ⟨b', rfl⟩ : ∃ b', b = b' + 1 := ⟨b - 1, by omega⟩
      have hchunk : chunk (b' + 1) (x :: xs) =
          (x :: xs).take (b' + 1) :: chunk (b' + 1) ((x :: xs).drop (b' + 1)) := by
        simp [chunk]
      rw [hchunk]
      intro s hs
      rcases List.mem_cons.mp hs with hhd | htl
      · subst hhd
        refine ⟨by simp [List.take_succ_cons], ?_⟩
        rw [List.length_take]
        omega
      · exact ih ((x :: xs).drop (b' + 1)) (by simp only [List.length_drop]; omega) s htl

/-- Every chunk except possibly the last has length exactly the block
size. -/
theorem chunk_getD {α : Type} (b : ℕ) (hb : 0 < b) :
    ∀ (n : ℕ) (l : List α), l.length ≤ n →
      ∀ i, i + 1 < (chunk b l).length → ((chunk b l).getD i []).length = b := by
  intro n
  induction n with
  | zero =>
    intro l hl
    obtain rfl : l = [] := List.eq_nil_of_length_eq_zero (by omega)
    simp [chunk]
  | succ n ih =>
    intro l hl
    cases l with
    | nil => simp [chunk]
    | cons x xs =>
      obtain ⟨b', rfl⟩ : ∃ b', b = b' + 1 := ⟨b - 1, by omega⟩
      have hchunk : chunk (b' + 1) (x :: xs) =
          (x :: xs).take (b' + 1) :: chunk (b' + 1) ((x :: xs).drop (b' + 1)) := by
        simp [chunk]
      rw [hchunk]
      intro i hi
      cases i with
      | zero =>
        have hne : chunk (b' + 1) ((x :: xs).drop (b' + 1)) ≠ [] := by
          simp only [List.length_cons] at hi
          intro hE
          rw [hE] at hi
          simp at hi
        have hdrop : (x :: xs).drop (b' + 1) ≠ [] := by
          intro hE
          rw [hE] at hne
          exact hne (by simp [chunk])
        have hlen : b' + 1 < xs.length + 1 := by
          have h2 := List.length_pos.mpr hdrop
          simp only [List.length_drop, List.length_cons] at h2
          omega
        simp only [List.getD_cons_zero, List.length_take, List.length_cons]
        omega
      | succ i =>
        simp only [List.getD_cons_succ]
        simp only [List.length_cons] at hi
        exact ih ((x :: xs).drop (b' + 1)) (by simp only [List.length_drop]; omega) i
          (by omega)

/-- C3, counterexample: a negative batch size does not fail — on a
nonempty list, `range(0, 3, -1)` is empty, so the partitioner silently
returns an empty list of batches instead of raising. -/
theorem batch_evaluations_negative_no_failure :
    batch_evaluations ([1, 2, 3] : List ℕ) (-1 : ℤ) = .ok [] := by decide

/-- C3, amended: only batch size exactly 0 fails (Python's
`range` raises `ValueError: range() arg 3 must not be zero`); a negative
batch size is accepted silently and yields an empty list of batches. -/
theorem batch_evaluations_nonpositive {α : Type} (l : List α) (batch_size : ℤ) :
    (batch_size = 0 →
      batch_evaluations l batch_size = .error "range() arg 3 must not be zero") ∧
    (batch_size < 0 → batch_evaluations l batch_size = .ok []) := by
  constructor
  · intro h
    subst h
    simp [batch_evaluations, pyRange, Except.map]
  · intro h
    simp only [batch_evaluations, pyRange]
    rw [if_neg (by omega : ¬ batch_size = 0),
      if_neg (by omega : ¬ (0 < batch_size ∧ (0 : ℤ) < (l.length : ℤ))),
      if_neg (by omega : ¬ (batch_size < 0 ∧ (l.length : ℤ) < 0))]
    simp [Except.map]

/-- Witness for C3's amended theorem at batch sizes 0 and −3. -/
theorem batch_evaluations_nonpositive_witness :
    (batch_evaluations ([1, 2] : List ℕ) 0 = .error "range() arg 3 must not be zero") ∧
      (batch_evaluations ([1, 2] : List ℕ) (-3) = .ok []) :=
  ⟨(batch_evaluations_nonpositive [1, 2] 0).1 rfl,
   (batch_evaluations_nonpositive [1, 2] (-3)).2 (by norm_num)⟩

/-- C5: for every list and positive batch size the partitioner returns
contiguous batches: concatenating them restores the input exactly (no
overlap, no gaps), every batch is nonempty and no longer than the batch
size, every batch except possibly the last is exactly full, and the empty
list yields zero batches.  In particular 23 records with batch size 10
yield batch sizes `[10, 10, 3]`. -/
theorem batch_evaluations_partition {α : Type} (l : List α) (batch_size : ℤ)
    (h : 0 < batch_size) :
    ∃ P, batch_evaluations l batch_size = .ok P ∧
      P.flatten = l ∧
      (∀ s ∈ P, s ≠ [] ∧ s.length ≤ batch_size.toNat) ∧
      (∀ i, i + 1 < P.length → (P.getD i []).length = batch_size.toNat) ∧
      (l = [] → P = []) ∧
      (batch_evaluations (List.range 23) (10 : ℤ)).map (fun Q => Q.map List.length) =
        .ok [10, 10, 3] := by
  have hbs : batch_size = ((batch_size.toNat : ℕ) : ℤ) := (Int.toNat_of_nonneg h.le).symm
  have hbpos : 0 < batch_size.toNat := by omega
  refine ⟨chunk batch_size.toNat l, ?_, ?_, ?_, ?_, ?_, ?_⟩
  · rw [hbs]
    exact batch_evaluations_pos l batch_size.toNat hbpos
  · exact chunk_join batch_size.toNat hbpos l.length l le_rfl
  · exact chunk_mem batch_size.toNat hbpos l.length l le_rfl
  · exact chunk_getD batch_size.toNat hbpos l.length l le_rfl
  · intro hl
    subst hl
    simp [chunk]
  · decide

/-- Witness for C5 at 23 records and batch size 10. -/
theorem batch_evaluations_partition_witness :
    (0 : ℤ) < 10 ∧
      ∃ P, batch_evaluations (List.range 23) (10 : ℤ) = .ok P ∧
        P.flatten = List.range 23 ∧
        (∀ s ∈ P, s ≠ [] ∧ s.length ≤ (10 : ℤ).toNat) ∧
        (∀ i, i + 1 < P.length → (P.getD i []).length = (10 : ℤ).toNat) ∧
        (List.range 23 = [] → P = []) ∧
        (batch_evaluations (List.range 23) (10 : ℤ)).map (fun Q => Q.map List.length) =
          .ok [10, 10, 3] :=
  ⟨by norm_num, batch_evaluations_partition (List.range 23) 10 (by norm_num)⟩

/-! ## The record extractor (`eval-auto.py` lines 81-112)

`extract_evaluations` walks an arbitrary parsed-JSON value.  We embed the
Python value universe as a JSON-like tree (dictionaries as ordered
association lists, as produced by `json.load`). -/

/-- A JSON-like Python value (`None | bool | int/float | str | list |
dict`); numbers are merged into `ℚ`. -/
inductive Json where
  | null
  | bool (b : Bool)
  | num (q : ℚ)
  | str (s : String)
  | arr (items : List Json)
  | obj (fields : List (String × Json))

/-- Python `'k' in data` on a dictionary. -/
def hasKey (fields : List (String × Json)) (k : String) : Bool :=
  (alistGet fields k).isSome

/-- `isinstance(val, (str, int, float, bool))` — eval-auto.py line 100
(`None`, lists and dictionaries are not scalars). -/
def isScalarJson : Json → Bool
  | .str _ => true
  | .num _ => true
  | .bool _ => true
  | _ => false

/-- Python dictionary assignment `m[k] = v`: overwrite in place if the
key exists (keeping its position), else append. -/
def dictSet (m : List (String × Json)) (k : String) (v : Json) :
    List (String × Json) :=
  if (alistGet m k).isSome then m.map (fun p => if p.1 = k then (k, v) else p)
  else m ++ [(k, v)]

/-- The `nested_metadata` built at eval-auto.py lines 104-107: the parent
context extended with whichever contextual identifier fields are present. -/
def ctxMeta (parent : List (String × Json)) (fields : List (String × Json)) :
    List (String × Json) :=
  ["session_id", "trace_id", "evaluator_name", "evaluator_id"].foldl
    (fun m k =>
      match alistGet fields k with
      | some v => dictSet m k v
      | none => m)
    parent

/-- The record metadata built at eval-auto.py lines 96-101: the parent
context plus every remaining scalar-valued field of the mapping. -/
def buildMeta (parent : List (String × Json)) (fields : List (String × Json)) :
    List (String × Json) :=
  fields.foldl
    (fun m p =>
      if p.1 = "score" ∨ p.1 = "value" ∨ p.1 = "explanation" then m
      else if isScalarJson p.2 then dictSet m p.1 p.2 else m)
    parent

/-- One extracted `eval_entry` dictionary (eval-auto.py lines 93-97):
`score` and `explanation` are carried through untyped. -/
structure EvalEntry where
  score : Json
  explanation : Json
  metadata : List (String × Json)

/-- A successful association-list lookup returns a strict subterm. -/
theorem alistGet_sizeOf_lt {κ ν : Type} [DecidableEq κ] [SizeOf κ] [SizeOf ν]
    (fs : List (κ × ν)) (k : κ) (v : ν) (h : alistGet fs k = some v) :
    sizeOf v < sizeOf fs := by
  induction fs with
  | nil => simp [alistGet] at h
  | cons p ps ih =>
    simp only [alistGet] at h
    split at h
    · obtain rfl : p.2 = v := Option.some.injEq _ _ |>.mp h
      cases p
      simp only [List.cons.sizeOf_spec, Prod.mk.sizeOf_spec]
      omega
    · have := ih h
      cases p
      simp only [List.cons.sizeOf_spec, Prod.mk.sizeOf_spec]
      omega

mutual

/-- `extract_evaluations(data, parent_metadata)` of eval-auto.py
lines 81-112.  A list recurses into each element with the inherited
context.  A dictionary is a record when it has a `score` field — or,
failing that, a `value` field (`score_key`) — together with an
`explanation` field; the record's score comes from `score` when present,
else from `value`, and no recursion enters a record.  A non-record
dictionary extends the context with the contextual identifiers present
and recurses only into the container keys
`results`/`evaluations`/`data`/`items`.  Scalars and `None` contribute
nothing. -/
def extract_evaluations : Json → List (String × Json) → List EvalEntry
  | .arr items, parent_metadata => extractList items parent_metadata
  | .obj fields, parent_metadata =>
      if (hasKey fields "score" || hasKey fields "value") && hasKey fields "explanation" then
        [{ score :=
             if hasKey fields "score" then (alistGet fields "score").getD .null
             else (alistGet fields "value").getD .null
           explanation := (alistGet fields "explanation").getD .null
           metadata := buildMeta parent_metadata fields }]
      else
        (match h1 : alistGet fields "results" with
          | some v => extract_evaluations v (ctxMeta parent_metadata fields)
          | none => []) ++
        (match h2 : alistGet fields "evaluations" with
          | some v => extract_evaluations v (ctxMeta parent_metadata fields)
          | none => []) ++
        (match h3 : alistGet fields "data" with
          | some v => extract_evaluations v (ctxMeta parent_metadata fields)
          | none => []) ++
        (match h4 : alistGet fields "items" with
          | some v => extract_evaluations v (ctxMeta parent_metadata fields)
          | none => [])
  | _, _ => []
termination_by d _ => sizeOf d
decreasing_by
  all_goals simp_wf
  all_goals try omega
  · have := alistGet_sizeOf_lt _ _ _ h1
    omega
  · have := alistGet_sizeOf_lt _ _ _ h2
    omega
  · have := alistGet_sizeOf_lt _ _ _ h3
    omega
  · have := alistGet_sizeOf_lt _ _ _ h4
    omega

/-- The `for item in data` loop of eval-auto.py lines 86-88, concatenating
the extractions of the elements in order. -/
def extractList : List Json → List (String × Json) → List EvalEntry
  | [], _ => []
  | x :: xs, parent_metadata =>
      extract_evaluations x parent_metadata ++ extractList xs parent_metadata
termination_by l _ => sizeOf l
decreasing_by
  all_goals simp_wf
  all_goals omega

end

/-- Specification-side record predicate (spec §4.1): a mapping is a
scored record when it has a `score`-or-`value` field together with an
`explanation` field. -/
def isRecordDict (fields : List (String × Json)) : Bool :=
  (hasKey fields "score" || hasKey fields "value") && hasKey fields "explanation"

/-- Specification-side score of a record mapping: the `score` field
when present, else the `value` field. -/
def recScore (fields : List (String × Json)) : Json :=
  if hasKey fields "score" then (alistGet fields "score").getD .null
  else (alistGet fields "value").getD .null

/-- Specification-side explanation of a record mapping. -/
def recExpl (fields : List (String × Json)) : Json :=
  (alistGet fields "explanation").getD .null

/-- The values of the container keys present on a mapping, in the fixed
order `results`, `evaluations`, `data`, `items` (spec §4.1). -/
def containerVals (fields : List (String × Json)) : List Json :=
  ["results", "evaluations", "data", "items"].filterMap (alistGet fields)

mutual

/-- Specification-side traversal: the record mappings the extractor's walk
reaches, in document pre-order — descending through sequence elements and
through the container keys of non-record mappings, and stopping at record
mappings. -/
def recordDicts : Json → List (List (String × Json))
  | .arr items => recordDictsL items
  | .obj fields =>
      if isRecordDict fields then [fields]
      else
        (match h1 : alistGet fields "results" with
          | some v => recordDicts v
          | none => []) ++
        (match h2 : alistGet fields "evaluations" with
          | some v => recordDicts v
          | none => []) ++
        (match h3 : alistGet fields "data" with
          | some v => recordDicts v
          | none => []) ++
        (match h4 : alistGet fields "items" with
          | some v => recordDicts v
          | none => [])
  | _ => []
termination_by d => sizeOf d
decreasing_by
  all_goals simp_wf
  all_goals try omega
  · have := alistGet_sizeOf_lt _ _ _ h1
    omega
  · have := alistGet_sizeOf_lt _ _ _ h2
    omega
  · have := alistGet_sizeOf_lt _ _ _ h3
    omega
  · have := alistGet_sizeOf_lt _ _ _ h4
    omega

/-- Pre-order concatenation of `recordDicts` over a list of values. -/
def recordDictsL : List Json → List (List (String × Json))
  | [] => []
  | x :: xs => recordDicts x ++ recordDictsL xs
termination_by l => sizeOf l
decreasing_by
  all_goals simp_wf
  all_goals omega

end

mutual

/-- The number of record mappings anywhere in a JSON tree that are not
nested inside another record mapping, exactly as C2 counts them:
the traversal descends through every field of every non-record mapping
and every sequence element, stopping at record mappings. -/
def specRecordCount : Json → ℕ
  | .arr items => specRecordCountL items
  | .obj fields =>
      if isRecordDict fields then 1 else specRecordCountFields fields
  | _ => 0

/-- `specRecordCount` summed over sequence elements. -/
def specRecordCountL : List Json → ℕ
  | [] => 0
  | x :: xs => specRecordCount x + specRecordCountL xs

/-- `specRecordCount` summed over all field values of a mapping. -/
def specRecordCountFields : List (String × Json) → ℕ
  | [] => 0
  | p :: ps => specRecordCount p.2 + specRecordCountFields ps

end

/-- Joint induction (on a size bound) behind C2: the extractor emits one
record per record mapping reached by the traversal, in pre-order, with
the score/explanation the specification prescribes. -/
theorem extract_recordDicts_aux (n : ℕ) :
    (∀ d : Json, sizeOf d ≤ n → ∀ pm,
      (extract_evaluations d pm).map (fun e => (e.score, e.explanation)) =
        (recordDicts d).map (fun fs => (recScore fs, recExpl fs))) ∧
    (∀ l : List Json, sizeOf l ≤ n → ∀ pm,
      (extractList l pm).map (fun e => (e.score, e.explanation)) =
        (recordDictsL l).map (fun fs => (recScore fs, recExpl fs))) := by
  induction n using Nat.strong_induction_on with
  | _ n ih =>
    constructor
    · intro d hd pm
      match d with
      | .null => simp [extract_evaluations, recordDicts]
      | .bool b => simp [extract_evaluations, recordDicts]
      | .num q => simp [extract_evaluations, recordDicts]
      | .str s => simp [extract_evaluations, recordDicts]
      | .arr items =>
        simp only [Json.arr.sizeOf_spec] at hd
        simp only [extract_evaluations, recordDicts]
        exact (ih (sizeOf items) (by omega)).2 items le_rfl pm
      | .obj fields =>
        simp only [Json.obj.sizeOf_spec] at hd
        have IHg : ∀ (k : String) (v : Json), alistGet fields k = some v →
            (extract_evaluations v (ctxMeta pm fields)).map
                (fun e => (e.score, e.explanation)) =
              (recordDicts v).map (fun fs => (recScore fs, recExpl fs)) := by
          intro k v hv
          have hsz := alistGet_sizeOf_lt _ _ _ hv
          exact (ih (sizeOf v) (by omega)).1 v le_rfl _
        simp only [extract_evaluations, recordDicts, isRecordDict]
        by_cases hc :
            ((hasKey fields "score" || hasKey fields "value") &&
              hasKey fields "explanation") = true
        · simp only [if_pos hc, List.map_cons, List.map_nil, recScore, recExpl]
        · simp only [if_neg hc]
          rcases hk1 : alistGet fields "results" with _ | v1 <;>
            rcases hk2 : alistGet fields "evaluations" with _ | v2 <;>
              rcases hk3 : alistGet fields "data" with _ | v3 <;>
                rcases hk4 : alistGet fields "items" with _ | v4 <;>
                  simp only [hk1, hk2, hk3, hk4, List.map_append, List.map_nil,
                    List.append_nil, List.nil_append] <;>
                  (try rw [IHg _ _ hk1]) <;> (try rw [IHg _ _ hk2]) <;>
                  (try rw [IHg _ _ hk3]) <;> (try rw [IHg _ _ hk4])
    · intro l hl pm
      match l with
      | [] => simp [extractList, recordDictsL]
      | x :: xs =>
        simp only [List.cons.sizeOf_spec] at hl
        simp only [extractList, recordDictsL, List.map_append]
        rw [(ih (sizeOf x) (by omega)).1 x le_rfl pm,
          (ih (sizeOf xs) (by omega)).2 xs le_rfl pm]

/-- C2, amended: for every JSON tree and inherited context, the extractor
returns exactly one record per record mapping that the traversal reaches
(through sequence elements and through the container keys
`results`/`evaluations`/`data`/`items` of non-record mappings), in
document pre-order, each carrying that mapping's score and explanation;
record mappings under other keys of non-record mappings are not reached
and yield no records. -/
theorem extract_evaluations_pre_order (d : Json) (pm : List (String × Json)) :
    (extract_evaluations d pm).length = (recordDicts d).length ∧
      (extract_evaluations d pm).map (fun e => (e.score, e.explanation)) =
        (recordDicts d).map (fun fs => (recScore fs, recExpl fs)) := by
  have h := (extract_recordDicts_aux (sizeOf d)).1 d le_rfl pm
  refine ⟨?_, h⟩
  have := congrArg List.length h
  simpa using this

/-- C2's counterexample input: one record mapping (it has `score` and
`explanation`, and is not nested inside another record mapping), nested
under the non-container key `payload`. -/
def c2tree : Json :=
  .obj [("payload", .obj [("score", .num 1), ("explanation", .str "why")])]

/-- C2, counterexample: `c2tree` contains exactly one record mapping not
nested inside another, yet the extractor returns zero records — the
record sits under a key outside the container allow-list, so the claim's
"exactly N records" fails (0 ≠ 1). -/
theorem extract_evaluations_misses_non_container :
    specRecordCount c2tree = 1 ∧ (extract_evaluations c2tree []).length = 0 ∧
      (0 : ℕ) ≠ 1 := by
  refine ⟨rfl, ?_, by omega⟩
  simp [c2tree, extract_evaluations, hasKey, alistGet]

/-- C6: a mapping is emitted as a record exactly when it carries an
`explanation` field together with a `score` field or — when `score` is
absent — a `value` field; the emitted record's score comes from `score`
when present, else from `value`, its explanation from `explanation`, its
metadata from the inherited context plus the remaining scalar fields.  A
mapping failing the condition is never emitted: its extraction is exactly
the concatenated extraction of its container-key children. -/
theorem extract_evaluations_record_condition
    (fields : List (String × Json)) (pm : List (String × Json)) :
    extract_evaluations (.obj fields) pm =
      if isRecordDict fields then
        [{ score := recScore fields
           explanation := recExpl fields
           metadata := buildMeta pm fields }]
      else
        ((containerVals fields).map
          (fun v => extract_evaluations v (ctxMeta pm fields))).flatten := by
  simp only [extract_evaluations, isRecordDict, containerVals, recScore, recExpl]
  by_cases hc :
      ((hasKey fields "score" || hasKey fields "value") &&
        hasKey fields "explanation") = true
  · simp only [if_pos hc]
  · simp only [if_neg hc]
    simp only [List.filterMap_cons, List.filterMap_nil]
    rcases hk1 : alistGet fields "results" with _ | v1 <;>
      rcases hk2 : alistGet fields "evaluations" with _ | v2 <;>
        rcases hk3 : alistGet fields "data" with _ | v3 <;>
          rcases hk4 : alistGet fields "items" with _ | v4 <;>
            simp [hk1, hk2, hk3, hk4]

/-! ## The dashboard renderer (`dashboard_generator.py` lines 14-47)

`generate_dashboard` wraps a single session dictionary into a list,
serializes the data with `json.dumps(..., indent=2, default=str)` and
embeds it as the `EVALUATION_DATA` constant of the generated document.
The two `datetime.now()` reads become explicit parameters; the static
template text around the interpolated parts is constant and does not
affect any claim. -/

/-- `n` spaces, for `json.dumps` indentation. -/
def spaces (n : ℕ) : String := String.mk (List.replicate n ' ')

/-- Renders a number as `json.dumps` would.  Python prints the decimal
`repr` of the float; the exact digit string is irrelevant to the claims
(which only compare payloads of equal inputs), so integers print exactly
and other rationals in fraction form. -/
def numToString (q : ℚ) : String :=
  if q.den = 1 then toString q.num else toString q.num ++ "/" ++ toString q.den

/-- Minimal JSON string escaping (backslash and quote; the full escape
table of `json.dumps` is irrelevant to the claims). -/
def escapeString (s : String) : String :=
  s.foldl
    (fun acc c =>
      if c = '"' then acc ++ "\\\""
      else if c = '\\' then acc ++ "\\\\"
      else acc.push c)
    ""

mutual

/-- `json.dumps(v, indent=2, default=str)` at current indentation `ind`
(the call site uses `indent=2`, hard-wired here as the step).  `default=str`
never fires: every embedded value is JSON-serializable. -/
def pyJsonDumps : Json → ℕ → String
  | .null, _ => "null"
  | .bool true, _ => "true"
  | .bool false, _ => "false"
  | .num q, _ => numToString q
  | .str s, _ => "\"" ++ escapeString s ++ "\""
  | .arr [], _ => "[]"
  | .arr (x :: xs), ind =>
      "[\n" ++ dumpsItems (x :: xs) (ind + 2) ++ "\n" ++ spaces ind ++ "]"
  | .obj [], _ => "\x7b\x7d"
  | .obj (p :: ps), ind =>
      "\x7b\n" ++ dumpsFields (p :: ps) (ind + 2) ++ "\n" ++ spaces ind ++ "\x7d"
termination_by d _ => sizeOf d
decreasing_by all_goals simp_wf <;> omega

/-- The comma-newline-joined, indented renderings of array items. -/
def dumpsItems : List Json → ℕ → String
  | [], _ => ""
  | [x], ind => spaces ind ++ pyJsonDumps x ind
  | x :: y :: xs, ind =>
      spaces ind ++ pyJsonDumps x ind ++ ",\n" ++ dumpsItems (y :: xs) ind
termination_by l _ => sizeOf l
decreasing_by all_goals simp_wf <;> omega

/-- The comma-newline-joined, indented renderings of object fields. -/
def dumpsFields : List (String × Json) → ℕ → String
  | [], _ => ""
  | [(k, v)], ind =>
      spaces ind ++ "\"" ++ escapeString k ++ "\": " ++ pyJsonDumps v ind
  | (k, v) :: q :: ps, ind =>
      spaces ind ++ "\"" ++ escapeString k ++ "\": " ++ pyJsonDumps v ind ++
        ",\n" ++ dumpsFields (q :: ps) ind
termination_by l _ => sizeOf l
decreasing_by all_goals simp_wf <;> omega

end

/-- The parts of the generated document that depend on the inputs:
the timestamped filename, the `Generated:` header timestamp, and the
inlined `EVALUATION_DATA` payload of dashboard_generator.py line 360. -/
structure Dashboard where
  filename : String
  headerTimestamp : String
  dataSection : String

/-- `generate_dashboard(evaluation_data, output_dir)` of
dashboard_generator.py lines 14-47: a non-list input is wrapped into a
one-element list (lines 26-27); the filename interpolates the first
`datetime.now()` timestamp (lines 34-35); the document header
interpolates the second (line 281); the embedded payload is
`json.dumps(evaluation_data, indent=2, default=str)` (lines 38 and 360). -/
def generate_dashboard (evaluation_data : Json) (output_dir : String)
    (tsFile tsHeader : String) : Dashboard :=
  let data : Json :=
    match evaluation_data with
    | .arr items => .arr items
    | d => .arr [d]
  { filename := output_dir ++ "/evaluation_dashboard_" ++ tsFile ++ ".html"
    headerTimestamp := tsHeader
    dataSection := "const EVALUATION_DATA = " ++ pyJsonDumps data 0 ++ ";" }

/-- C8: the inlined `EVALUATION_DATA` section is a pure function of the
bundle collection — two invocations on the same input, with any
timestamps (which only enter the filename and the header line) and any
output directories, produce byte-identical inlined-data sections. -/
theorem generate_dashboard_payload_deterministic
    (evaluation_data : Json) (dir1 dir2 t1 h1 t2 h2 : String) :
    (generate_dashboard evaluation_data dir1 t1 h1).dataSection =
      (generate_dashboard evaluation_data dir2 t2 h2).dataSection := rfl

/-- C9: a single session mapping is wrapped into a one-element list —
the generated document is identical to the one for the singleton-list
input, and its payload is the serialization of that one-element list. -/
theorem generate_dashboard_wraps_single (fields : List (String × Json))
    (output_dir tsFile tsHeader : String) :
    generate_dashboard (.obj fields) output_dir tsFile tsHeader =
        generate_dashboard (.arr [.obj fields]) output_dir tsFile tsHeader ∧
      (generate_dashboard (.obj fields) output_dir tsFile tsHeader).dataSection =
        "const EVALUATION_DATA = " ++ pyJsonDumps (.arr [.obj fields]) 0 ++ ";" :=
  ⟨rfl, rfl⟩

/-- `roundHalfEven` lands within one half of its argument. -/
theorem roundHalfEven_close (q : ℚ) : |(roundHalfEven q : ℚ) - q| ≤ 1/2 := by
  have h1 : ((⌊q⌋ : ℤ) : ℚ) ≤ q := Int.floor_le q
  have h2 : q < ((⌊q⌋ : ℤ) : ℚ) + 1 := Int.lt_floor_add_one q
  simp only [roundHalfEven]
  split
  · rename_i h
    rw [abs_le]
    constructor <;> linarith
  · split
    · rename_i h h'
      rw [abs_le]
      push_cast
      constructor <;> linarith
    · split <;>
        · rename_i h h' h''
          rw [abs_le]
          push_cast
          constructor <;> linarith

/-- `pyRound q n` is within half a unit in the last kept decimal place of
`q`: the statistics really are roundings of the exact values. -/
theorem pyRound_close (q : ℚ) (n : ℕ) : |pyRound q n - q| ≤ 1 / (2 * 10 ^ n) := by
  have hpos : (0 : ℚ) < 10 ^ n := by positivity
  have h := roundHalfEven_close (q * 10 ^ n)
  unfold pyRound
  have heq : (roundHalfEven (q * 10 ^ n) : ℚ) / 10 ^ n - q =
      ((roundHalfEven (q * 10 ^ n) : ℚ) - q * 10 ^ n) / 10 ^ n := by
    field_simp
    ring
  rw [heq, abs_div, abs_of_pos hpos, div_le_div_iff hpos (by positivity)]
  calc |(roundHalfEven (q * 10 ^ n) : ℚ) - q * 10 ^ n| * (2 * 10 ^ n)
      ≤ (1/2) * (2 * 10 ^ n) := by
        apply mul_le_mul_of_nonneg_right h
        positivity
    _ = 1 * 10 ^ n := by ring
